import Mathlib

/-!
Verification of the path-filter script of this repository.

The script under test runs a directory listing, splits its standard
output on the newline character, and for each resulting line drops the
first two characters and tests the remainder against the anchored
regular expression

  caret (deploy/.* | hack/.* | integration_test/.* | internal/.* |
   packages/.* | pkg/.* | rpm-prefetching/.* | Dockerfile\..* |
   Makefile | go\.mod | go\.sum | \.dockerignore | build_deploy\.sh |
   main\.go | renovate\.json) dollar

using Python re.findall semantics: the caret anchor matches only at the
start of the string, the dollar anchor matches at the end of the string
or just before a trailing newline, and the dot metacharacter matches any
character except the newline.  The development below embeds exactly the
regular-expression constructs this pattern uses (literal characters,
concatenation, alternation, and a trailing dot-star) with a Brzozowski
derivative matcher, embeds the line-splitting and printing driver, and
proves the documented properties of both.
-/

namespace TestRegex

/-- Regular-expression constructs used by the pattern of the script:
the failing expression, the empty word, a literal character, a trailing
dot-star (zero or more characters, none of which may be a newline, per
Python semantics of the dot without DOTALL), concatenation and
alternation. -/
inductive Reg : Type where
  | fail : Reg
  | eps : Reg
  | chr : Char → Reg
  | dotStar : Reg
  | seq : Reg → Reg → Reg
  | alt : Reg → Reg → Reg
deriving DecidableEq, Repr

/-- Whether the expression accepts the empty word. -/
def nullable : Reg → Bool
  | .fail => false
  | .eps => true
  | .chr _ => false
  | .dotStar => true
  | .seq r₁ r₂ => nullable r₁ && nullable r₂
  | .alt r₁ r₂ => nullable r₁ || nullable r₂

/-- Brzozowski derivative of an expression by a character.  The
derivative of the dot-star is itself except on the newline character,
which the Python dot never matches. -/
def deriv : Reg → Char → Reg
  | .fail, _ => .fail
  | .eps, _ => .fail
  | .chr a, c => if a = c then .eps else .fail
  | .dotStar, c => if c = '\n' then .fail else .dotStar
  | .seq r₁ r₂, c =>
    if nullable r₁ then .alt (.seq (deriv r₁ c) r₂) (deriv r₂ c)
    else .seq (deriv r₁ c) r₂
  | .alt r₁ r₂, c => .alt (deriv r₁ c) (deriv r₂ c)

/-- Whole-word matching by iterated derivatives. -/
def rmatch : Reg → List Char → Bool
  | r, [] => nullable r
  | r, c :: cs => rmatch (deriv r c) cs

/-- A literal character sequence followed by a given expression. -/
def litThen (l : List Char) (tail : Reg) : Reg :=
  l.foldr (fun c r => .seq (.chr c) r) tail

/-- A literal word, such as the Makefile branch of the pattern. -/
def lit (l : List Char) : Reg :=
  litThen l .eps

/-- A literal word followed by dot-star, such as the deploy/ branch. -/
def branch (l : List Char) : Reg :=
  litThen l .dotStar

/-- The body of the anchored pattern of the script, in source order. -/
def pattern : Reg :=
  .alt (branch "deploy/".data) (.alt (branch "hack/".data)
  (.alt (branch "integration_test/".data) (.alt (branch "internal/".data)
  (.alt (branch "packages/".data) (.alt (branch "pkg/".data)
  (.alt (branch "rpm-prefetching/".data) (.alt (branch "Dockerfile.".data)
  (.alt (lit "Makefile".data) (.alt (lit "go.mod".data)
  (.alt (lit "go.sum".data) (.alt (lit ".dockerignore".data)
  (.alt (lit "build_deploy.sh".data) (.alt (lit "main.go".data)
  (lit "renovate.json".data))))))))))))))

/-- Embedding of re.findall of the fully anchored pattern, returning the
list of captures of the single group.  The caret allows a match to start
only at position zero; the dollar allows it to end at the end of the
string or just before a trailing newline, so the group capture is either
the whole string or the whole string less its trailing newline. -/
def findall (s : String) : List String :=
  if rmatch pattern s.data then [s]
  else
    match s.data.getLast? with
    | some c =>
      if c == '\n' && rmatch pattern s.data.dropLast then
        [String.mk s.data.dropLast]
      else []
    | none => []

/-- The boolean the script computes: matched = len(findall(...)) > 0. -/
def policyB (s : String) : Bool :=
  decide (0 < (findall s).length)

/-- Characterisation of Policy B written from the words of the spec: the
string equals one of the literal names, or starts with one of the listed
directory prefixes, or starts with Dockerfile followed by a dot.  This
definition follows the spec, for comparison with the matcher above. -/
def charB (s : String) : Bool :=
  "deploy/".data.isPrefixOf s.data || "hack/".data.isPrefixOf s.data ||
  "integration_test/".data.isPrefixOf s.data ||
  "internal/".data.isPrefixOf s.data ||
  "packages/".data.isPrefixOf s.data || "pkg/".data.isPrefixOf s.data ||
  "rpm-prefetching/".data.isPrefixOf s.data ||
  "Dockerfile.".data.isPrefixOf s.data ||
  s == "Makefile" || s == "go.mod" || s == "go.sum" ||
  s == ".dockerignore" || s == "build_deploy.sh" || s == "main.go" ||
  s == "renovate.json"

/-- Modelled from the spec: Policy A, the filter of the first script of
the repository, whose source is not included under src.  Per spec
section 4.1, a normalized path matches when it ends with a path
separator, is not exactly .gitignore, does not begin with .tekton/, is
not exactly OWNERS, is not exactly LICENSE, and does not end with .md
(conjunction of all conditions, reproduced as specified). -/
def policyA (s : String) : Bool :=
  (s.data.getLast? == some '/') &&
  !(s == ".gitignore") &&
  !(".tekton/".data.isPrefixOf s.data) &&
  !(s == "OWNERS") &&
  !(s == "LICENSE") &&
  !(".md".data.isSuffixOf s.data)

/-- Two successive evaluations of a filter predicate on the same input,
as observed by a caller of the pure predicate. -/
def evalTwice (p : String → Bool) (s : String) : Bool × Bool :=
  (p s, p s)

/-- Normalisation applied to each line: the Python slice file[2:],
dropping the first two characters. -/
def normalize (raw : String) : String :=
  String.mk (raw.data.drop 2)

/-- Python repr of a True or False boolean, as printed by percent-r. -/
def pyReprBool (b : Bool) : String :=
  if b then "True" else "False"

/-- Python repr of a string (quoting only; the paths at hand need no
escaping). -/
def pyReprStr (s : String) : String :=
  "\x27" ++ s ++ "\x27"

/-- Python repr of a list of strings, as printed for the findall
result. -/
def pyReprList (l : List String) : String :=
  "[" ++ String.intercalate ", " (l.map pyReprStr) ++ "]"

/-- The first print of the loop body: the repr of the findall result on
the normalized line. -/
def diagLine (file : String) : String :=
  pyReprList (findall (normalize file))

/-- The second print of the loop body: the normalized line, a comma and
space, and the repr of the matched boolean. -/
def resultLine (file : String) : String :=
  normalize file ++ ", " ++ pyReprBool (policyB (normalize file))

/-- One iteration of the loop: the two lines printed for one record. -/
def processLine (file : String) : List String :=
  [diagLine file, resultLine file]

/-- Splitting a character sequence on the newline character, keeping
empty segments, exactly as the Python str.split on a newline does. -/
def splitLines : List Char → List (List Char)
  | [] => [[]]
  | c :: cs =>
    if c = '\n' then [] :: splitLines cs
    else
      match splitLines cs with
      | [] => [[c]]
      | l :: ls => (c :: l) :: ls

/-- The list of lines the loop iterates over, from the captured standard
output of the listing process. -/
def pySplit (files : String) : List String :=
  (splitLines files.data).map String.mk

/-- The full sequence of lines the script prints, two per record, in
loop order. -/
def driverOutput (files : String) : List String :=
  (pySplit files).flatMap processLine

/-- The elements at odd positions of a list: the match-result lines of
the printed output. -/
def oddIdx {α : Type} : List α → List α
  | [] => []
  | [_] => []
  | _ :: b :: rest => b :: oddIdx rest

/-- The observable outcome of the listing process: captured standard
output and standard error, and its exit status. -/
structure ProcResult : Type where
  stdout : String
  stderr : String
  exitStatus : Int
deriving DecidableEq, Repr

/-- The whole program run: the script reads only the standard output of
the listing process (standard error and status are bound but never
consulted), prints the driver output, and finishes with exit status
zero. -/
def programRun (p : ProcResult) : List String × Nat :=
  (driverOutput p.stdout, 0)

theorem rmatch_fail : ∀ cs : List Char, rmatch .fail cs = false
  | [] => rfl
  | _ :: cs => rmatch_fail cs

theorem rmatch_eps : ∀ cs : List Char, rmatch .eps cs = true ↔ cs = []
  | [] => by simp [rmatch, nullable]
  | c :: cs => by
    rw [show rmatch .eps (c :: cs) = rmatch .fail cs from rfl, rmatch_fail]
    simp

theorem rmatch_alt :
    ∀ (cs : List Char) (r₁ r₂ : Reg),
      rmatch (.alt r₁ r₂) cs = (rmatch r₁ cs || rmatch r₂ cs)
  | [], _, _ => rfl
  | c :: cs, r₁, r₂ => rmatch_alt cs (deriv r₁ c) (deriv r₂ c)

theorem rmatch_dotStar :
    ∀ cs : List Char, rmatch .dotStar cs = true ↔ '\n' ∉ cs
  | [] => by simp [rmatch, nullable]
  | c :: cs => by
    by_cases hc : c = '\n'
    · subst hc
      rw [show rmatch Reg.dotStar ('\n' :: cs) = rmatch Reg.fail cs from rfl,
        rmatch_fail]
      simp
    · rw [show rmatch Reg.dotStar (c :: cs)
          = rmatch (if c = '\n' then Reg.fail else Reg.dotStar) cs from rfl,
        if_neg hc, rmatch_dotStar cs]
      have hcn : ¬('\n' = c) := fun h => hc h.symm
      simp [List.mem_cons, hcn]

theorem rmatch_seq_fail :
    ∀ (cs : List Char) (r : Reg), rmatch (.seq .fail r) cs = false
  | [], _ => rfl
  | _ :: cs, r => rmatch_seq_fail cs r

theorem rmatch_seq_eps :
    ∀ (cs : List Char) (r : Reg), rmatch (.seq .eps r) cs = rmatch r cs
  | [], r => by simp [rmatch, nullable]
  | c :: cs, r => by
    rw [show rmatch (Reg.seq Reg.eps r) (c :: cs)
        = rmatch (Reg.alt (Reg.seq Reg.fail r) (deriv r c)) cs from rfl,
      rmatch_alt, rmatch_seq_fail,
      show rmatch r (c :: cs) = rmatch (deriv r c) cs from rfl]
    simp

theorem rmatch_litThen :
    ∀ (l cs : List Char) (r : Reg),
      rmatch (litThen l r) cs = true ↔ ∃ t, cs = l ++ t ∧ rmatch r t = true
  | [], cs, r => by simp [litThen]
  | a :: l, [], r => by
    rw [show litThen (a :: l) r = Reg.seq (Reg.chr a) (litThen l r) from rfl]
    simp [rmatch, nullable]
  | a :: l, c :: cs, r => by
    rw [show rmatch (litThen (a :: l) r) (c :: cs)
        = rmatch (Reg.seq (if a = c then Reg.eps else Reg.fail)
            (litThen l r)) cs from rfl]
    by_cases hac : a = c
    · subst hac
      rw [if_pos rfl, rmatch_seq_eps, rmatch_litThen l cs r]
      constructor
      · rintro ⟨t, rfl, ht⟩
        exact ⟨t, rfl, ht⟩
      · rintro ⟨t, het, ht⟩
        rw [List.cons_append] at het
        exact ⟨t, List.tail_eq_of_cons_eq het, ht⟩
    · rw [if_neg hac, rmatch_seq_fail]
      constructor
      · intro h
        exact absurd h (by simp)
      · rintro ⟨t, het, -⟩
        rw [List.cons_append] at het
        exact absurd (List.head_eq_of_cons_eq het).symm hac

theorem rmatch_lit (l cs : List Char) :
    rmatch (lit l) cs = true ↔ cs = l := by
  rw [show lit l = litThen l Reg.eps from rfl, rmatch_litThen]
  constructor
  · rintro ⟨t, rfl, ht⟩
    rw [(rmatch_eps t).mp ht, List.append_nil]
  · rintro rfl
    exact ⟨[], by simp, (rmatch_eps []).mpr rfl⟩

theorem rmatch_branch (l cs : List Char) :
    rmatch (branch l) cs = true ↔ ∃ t, cs = l ++ t ∧ '\n' ∉ t := by
  rw [show branch l = litThen l Reg.dotStar from rfl, rmatch_litThen]
  constructor
  · rintro ⟨t, rfl, ht⟩
    exact ⟨t, rfl, (rmatch_dotStar t).mp ht⟩
  · rintro ⟨t, rfl, ht⟩
    exact ⟨t, rfl, (rmatch_dotStar t).mpr ht⟩

theorem rmatch_branch_of_no_newline (l cs : List Char) (h : '\n' ∉ cs) :
    rmatch (branch l) cs = true ↔ l <+: cs := by
  rw [rmatch_branch]
  constructor
  · rintro ⟨t, rfl, -⟩
    exact ⟨t, rfl⟩
  · rintro ⟨t, rfl⟩
    refine ⟨t, rfl, fun hm => h ?_⟩
    exact List.mem_append.mpr (Or.inr hm)

theorem rmatch_pattern_iff (cs : List Char) (h : '\n' ∉ cs) :
    rmatch pattern cs = true ↔
      ("deploy/".data <+: cs ∨ "hack/".data <+: cs ∨
       "integration_test/".data <+: cs ∨ "internal/".data <+: cs ∨
       "packages/".data <+: cs ∨ "pkg/".data <+: cs ∨
       "rpm-prefetching/".data <+: cs ∨ "Dockerfile.".data <+: cs ∨
       cs = "Makefile".data ∨ cs = "go.mod".data ∨ cs = "go.sum".data ∨
       cs = ".dockerignore".data ∨ cs = "build_deploy.sh".data ∨
       cs = "main.go".data ∨ cs = "renovate.json".data) := by
  have hb : ∀ l : List Char, rmatch (branch l) cs = true ↔ l <+: cs :=
    fun l => rmatch_branch_of_no_newline l cs h
  simp only [pattern, rmatch_alt, Bool.or_eq_true, rmatch_lit, hb]

theorem charB_iff (s : String) :
    charB s = true ↔
      ("deploy/".data <+: s.data ∨ "hack/".data <+: s.data ∨
       "integration_test/".data <+: s.data ∨ "internal/".data <+: s.data ∨
       "packages/".data <+: s.data ∨ "pkg/".data <+: s.data ∨
       "rpm-prefetching/".data <+: s.data ∨ "Dockerfile.".data <+: s.data ∨
       s.data = "Makefile".data ∨ s.data = "go.mod".data ∨
       s.data = "go.sum".data ∨ s.data = ".dockerignore".data ∨
       s.data = "build_deploy.sh".data ∨ s.data = "main.go".data ∨
       s.data = "renovate.json".data) := by
  simp only [charB, Bool.or_eq_true, List.isPrefixOf_iff_prefix, beq_iff_eq,
    String.ext_iff, or_assoc]

theorem policyB_eq_rmatch_of_no_newline (s : String) (h : '\n' ∉ s.data) :
    policyB s = rmatch pattern s.data := by
  unfold policyB findall
  cases hm : rmatch pattern s.data with
  | true => simp [hm]
  | false =>
    cases hl : s.data.getLast? with
    | none => simp [hm, hl]
    | some c =>
      have hc : c ∈ s.data := by
        rcases List.getLast?_eq_some_iff.mp hl with ⟨l', hl'⟩
        rw [hl']
        exact List.mem_append.mpr (Or.inr (List.mem_singleton_self c))
      have hcn : (c == '\n') = false := by
        simp only [beq_eq_false_iff_ne, ne_eq]
        rintro rfl
        exact h hc
      simp [hm, hl, hcn]

theorem length_flatMap_processLine (l : List String) :
    (l.flatMap processLine).length = 2 * l.length := by
  induction l with
  | nil => rfl
  | cons x xs ih =>
    simp only [List.flatMap_cons, List.length_append, List.length_cons, ih,
      processLine, List.length_nil]
    omega

theorem getElem?_flatMap_processLine :
    ∀ (l : List String) (i : Nat) (hi : i < l.length),
      (l.flatMap processLine)[2 * i]? = some (diagLine (l.get ⟨i, hi⟩)) ∧
      (l.flatMap processLine)[2 * i + 1]? = some (resultLine (l.get ⟨i, hi⟩))
  | [], i, hi => absurd hi (by simp)
  | x :: xs, 0, _ => by
    rw [show (x :: xs).flatMap processLine
        = diagLine x :: resultLine x :: xs.flatMap processLine from rfl]
    exact ⟨List.getElem?_cons_zero, by
      rw [show 2 * 0 + 1 = 0 + 1 from rfl, List.getElem?_cons_succ]
      exact List.getElem?_cons_zero⟩
  | x :: xs, i + 1, hi => by
    have hi' : i < xs.length := Nat.lt_of_succ_lt_succ hi
    have ih := getElem?_flatMap_processLine xs i hi'
    have h2 : 2 * (i + 1) = 2 * i + 1 + 1 := by ring
    rw [show (x :: xs).flatMap processLine
        = diagLine x :: resultLine x :: xs.flatMap processLine from rfl,
      h2, List.getElem?_cons_succ, List.getElem?_cons_succ,
      List.getElem?_cons_succ, List.getElem?_cons_succ,
      show (x :: xs).get ⟨i + 1, hi⟩ = xs.get ⟨i, hi'⟩ from rfl]
    exact ih

theorem oddIdx_flatMap_processLine :
    ∀ l : List String, oddIdx (l.flatMap processLine) = l.map resultLine
  | [] => rfl
  | x :: xs => by
    rw [show (x :: xs).flatMap processLine
        = diagLine x :: resultLine x :: xs.flatMap processLine from rfl,
      show oddIdx (diagLine x :: resultLine x :: xs.flatMap processLine)
        = resultLine x :: oddIdx (xs.flatMap processLine) from rfl,
      oddIdx_flatMap_processLine xs]
    rfl

theorem splitLines_ne_nil : ∀ cs : List Char, splitLines cs ≠ []
  | [] => by simp [splitLines]
  | c :: cs => by
    by_cases hc : c = '\n'
    · simp [splitLines, hc]
    · simp only [splitLines, if_neg hc]
      cases h : splitLines cs <;> simp

theorem splitLines_append_newline :
    ∀ cs : List Char, splitLines (cs ++ ['\n']) = splitLines cs ++ [[]]
  | [] => by simp [splitLines]
  | c :: cs => by
    have ih := splitLines_append_newline cs
    by_cases hc : c = '\n'
    · subst hc
      rw [List.cons_append,
        show splitLines ('\n' :: (cs ++ ['\n']))
          = [] :: splitLines (cs ++ ['\n']) from rfl,
        show splitLines ('\n' :: cs) = [] :: splitLines cs from rfl,
        ih, List.cons_append]
    · obtain ⟨l, ls, hls⟩ : ∃ l ls, splitLines cs = l :: ls := by
        cases h : splitLines cs with
        | nil => exact absurd h (splitLines_ne_nil cs)
        | cons l ls => exact ⟨l, ls, rfl⟩
      simp only [List.cons_append, splitLines, if_neg hc, hls, List.append_eq]
      rw [ih, hls, List.cons_append]

example : rmatch pattern "pkg/foo.go".data = true := by decide
example : rmatch pattern "Makefile".data = true := by decide
example : rmatch pattern "README.md".data = false := by decide
example : rmatch pattern "internal".data = false := by decide
example : policyB "Makefile\n" = true := by decide
example : charB "Makefile\n" = false := by decide
example : policyB "internal/a\nb" = false := by decide
example : charB "internal/a\nb" = true := by decide
example : pySplit "./a\n./Makefile" = ["./a", "./Makefile"] := by decide
example : driverOutput "./Makefile" =
    ["[\x27Makefile\x27]", "Makefile, True"] := by decide
example : processLine "" = ["[]", ", False"] := by decide

/-- Claim C1, counterexample: the claim quantifies over every string,
but on the input consisting of Makefile followed by a newline the
predicate of the script returns true (the Python dollar anchor matches
just before a trailing newline), while the enumerated characterisation
of the spec, charB, is false there: the string equals none of the
literal names and starts with none of the listed prefixes. -/
theorem policyB_charB_disagree_on_newline :
    policyB "Makefile\n" = true ∧ charB "Makefile\n" = false :=
  ⟨by decide, by decide⟩

/-- Claim C1 (amended): for every string containing no newline
character, the predicate of the script returns true iff the string
equals one of the literal names or starts with one of the listed
prefixes or starts with Dockerfile and a dot, as enumerated by charB;
the five example inputs of the spec evaluate as stated, the match is
against the full string, and a bare directory name without its trailing
separator does not match while the name with the separator does. -/
theorem policyB_characterization :
    (∀ s : String, '\n' ∉ s.data → policyB s = charB s) ∧
    policyB "pkg/foo.go" = true ∧ policyB "main.go" = true ∧
    policyB "Dockerfile.worker" = true ∧ policyB "README.md" = false ∧
    policyB "internal" = false ∧ policyB "internal/" = true ∧
    policyB "internal/foo" = true := by
  refine ⟨fun s h => ?_, by decide, by decide, by decide, by decide,
    by decide, by decide, by decide⟩
  rw [Bool.eq_iff_iff, policyB_eq_rmatch_of_no_newline s h,
    rmatch_pattern_iff s.data h, charB_iff]

/-- Witness for the amended claim C1 at a concrete newline-free
input. -/
theorem policyB_characterization_witness :
    policyB "go.sum" = charB "go.sum" :=
  policyB_characterization.1 "go.sum" (by decide)

/-- Claim C2: the empty string does not match the predicate of the
script: findall returns the empty list on it and the matched boolean is
False; the evaluation is an ordinary total computation. -/
theorem policyB_empty_false : policyB "" = false ∧ findall "" = [] :=
  ⟨by decide, by decide⟩

/-- Claim C3: the string the filter is applied to and printed is the raw
line with its first two characters removed, for every line, including
lines of fewer than two characters, which normalize to the empty
string; the loop body tests and prints exactly that normalized
string. -/
theorem normalize_drops_first_two :
    (∀ raw : String, (normalize raw).data = raw.data.drop 2) ∧
    (∀ raw : String, raw.data.length ≤ 2 → normalize raw = "") ∧
    (∀ file : String, processLine file =
      [pyReprList (findall (normalize file)),
       normalize file ++ ", " ++ pyReprBool (policyB (normalize file))]) := by
  refine ⟨fun raw => rfl, fun raw h => ?_, fun file => rfl⟩
  show String.mk (raw.data.drop 2) = ""
  rw [List.drop_eq_nil_of_le h]

/-- Witness for claim C3 at a concrete two-character line. -/
theorem normalize_drops_first_two_witness : normalize "ab" = "" :=
  normalize_drops_first_two.2.1 "ab" (by decide)

/-- Claim C4: for every record the driver emits exactly two output
lines, the diagnostic line at the even index and, at the following odd
index, the match-result line consisting of the normalized path, a comma
and a space, and the printed boolean, which is exactly the filter
predicate evaluated on that normalized path. -/
theorem driver_prints_two_lines_per_record (files : String) :
    (driverOutput files).length = 2 * (pySplit files).length ∧
    ∀ (i : Nat) (hi : i < (pySplit files).length),
      (driverOutput files)[2 * i]? =
        some (pyReprList (findall (normalize ((pySplit files).get ⟨i, hi⟩)))) ∧
      (driverOutput files)[2 * i + 1]? =
        some (normalize ((pySplit files).get ⟨i, hi⟩) ++ ", " ++
          pyReprBool (policyB (normalize ((pySplit files).get ⟨i, hi⟩)))) :=
  ⟨length_flatMap_processLine _,
   fun i hi => getElem?_flatMap_processLine (pySplit files) i hi⟩

/-- Witness for claim C4 on a concrete two-line listing. -/
theorem driver_prints_two_lines_per_record_witness :
    (driverOutput "./a\n./Makefile")[3]? =
      some ("Makefile" ++ ", " ++ pyReprBool (policyB "Makefile")) :=
  ((driver_prints_two_lines_per_record "./a\n./Makefile").2 1 (by decide)).2

/-- Claim C5: the match-result lines appear in exactly the order of the
input lines, one per input line, none skipped, duplicated or reordered,
each carrying the corresponding line with its first two characters
dropped. -/
theorem driver_preserves_order (files : String) :
    oddIdx (driverOutput files) =
      (pySplit files).map (fun file =>
        String.mk (file.data.drop 2) ++ ", " ++
          pyReprBool (policyB (String.mk (file.data.drop 2)))) :=
  oddIdx_flatMap_processLine (pySplit files)

/-- Claim C6: the filter predicate is total: on every string it yields a
boolean, true or false, and no input is outside its domain. -/
theorem policyB_total (s : String) :
    policyB s = true ∨ policyB s = false := by
  cases h : policyB s
  · exact Or.inr rfl
  · exact Or.inl rfl

/-- Claim C7: evaluating the same normalized path twice under the same
policy yields the same boolean both times; the predicates are pure
functions of their argument. -/
theorem policy_eval_idempotent (s : String) :
    (evalTwice policyB s).1 = (evalTwice policyB s).2 ∧
    (evalTwice policyA s).1 = (evalTwice policyA s).2 :=
  ⟨rfl, rfl⟩

/-- Claim C8: every string not ending in the path separator is rejected
by Policy A; in particular LICENSE, OWNERS and .gitignore are rejected,
and so is every string ending in .md. -/
theorem policyA_requires_trailing_separator :
    (∀ s : String, s.data.getLast? ≠ some '/' → policyA s = false) ∧
    policyA "LICENSE" = false ∧ policyA "OWNERS" = false ∧
    policyA ".gitignore" = false ∧
    (∀ t : String, policyA (t ++ ".md") = false) := by
  have hmain : ∀ s : String, s.data.getLast? ≠ some '/' → policyA s = false := by
    intro s h
    have hq : (s.data.getLast? == some '/') = false := by
      simpa using h
    unfold policyA
    rw [hq, Bool.false_and, Bool.false_and, Bool.false_and, Bool.false_and,
      Bool.false_and]
  refine ⟨hmain, by decide, by decide, by decide, fun t => ?_⟩
  apply hmain
  rw [String.data_append,
    List.getLast?_append_of_ne_nil t.data (show ".md".data ≠ [] by decide)]
  decide

/-- Witness for claim C8 at a concrete markdown file name. -/
theorem policyA_requires_trailing_separator_witness :
    policyA "README.md" = false :=
  policyA_requires_trailing_separator.1 "README.md" (by decide)

/-- Claim C9: the printed output and the exit status of the program are
a function of the standard output of the listing process alone: two
process results with the same standard output produce the same program
run, whatever their standard error and exit status, and the program
always finishes with status zero. -/
theorem output_function_of_stdout (p q : ProcResult)
    (h : p.stdout = q.stdout) :
    programRun p = programRun q ∧ (programRun p).2 = 0 := by
  constructor
  · unfold programRun
    rw [h]
  · rfl

/-- Witness for claim C9: a failed listing with noise on standard error
and a clean one with the same standard output give identical runs. -/
theorem output_function_of_stdout_witness :
    programRun ⟨"./a", "find: no such directory", 1⟩ =
      programRun ⟨"./a", "", 0⟩ ∧
    (programRun ⟨"./a", "find: no such directory", 1⟩).2 = 0 :=
  output_function_of_stdout ⟨"./a", "find: no such directory", 1⟩
    ⟨"./a", "", 0⟩ rfl

/-- Claim C10: splitting keeps empty segments, so a listing output that
ends with a newline yields one final empty record beyond the real
entries; the driver prints two lines per segment, and the last printed
line is the match-result line of the empty record, a comma, a space and
False. -/
theorem trailing_newline_empty_record (t : String) :
    pySplit (t ++ "\n") = pySplit t ++ [""] ∧
    (driverOutput (t ++ "\n")).length = 2 * ((pySplit t).length + 1) ∧
    (driverOutput (t ++ "\n")).getLast? = some ", False" := by
  have h1 : pySplit (t ++ "\n") = pySplit t ++ [""] := by
    unfold pySplit
    rw [String.data_append, show "\n".data = ['\n'] by decide,
      splitLines_append_newline, List.map_append]
    rfl
  refine ⟨h1, ?_, ?_⟩
  · show ((pySplit (t ++ "\n")).flatMap processLine).length = _
    rw [h1, length_flatMap_processLine, List.length_append]
    rfl
  · show ((pySplit (t ++ "\n")).flatMap processLine).getLast? = _
    rw [h1, List.flatMap_append]
    have h2 : ([""] : List String).flatMap processLine
        = [diagLine "", resultLine ""] := by
      simp [List.flatMap_cons, processLine]
    rw [h2, List.getLast?_append_of_ne_nil _ (by simp)]
    decide

end TestRegex
